import Mathlib

/-!
Verification of the landmark-to-label classification pipeline
(`backend/utils/preprocessing.js` and the session routes of
`backend/routes/sessions.js`).

JavaScript numbers are modelled exactly: a value is either an exact rational
or one of the IEEE special values NaN, Infinity, -Infinity.  `Math.sqrt` and
`Math.acos` produce irrational values on most inputs, so they are passed in as
parameters `sq ac : ℚ → ℚ`; theorems that depend on arithmetic properties of
the square root state them as hypotheses restricted to the values actually
occurring in the computation (those hypotheses are satisfiable, e.g. by
`ratSqrt` below on inputs whose distances are perfect squares).
-/

/-- Reducible rational addition: the Batteries rational operations are
irreducible, which blocks kernel evaluation of concrete programs; these
equivalent forms built on Rat.divInt reduce, and are proved equal to the
field operations below (qAdd_eq and friends). -/
def qAdd (a b : ℚ) : ℚ := Rat.divInt (a.num * b.den + b.num * a.den) (a.den * b.den)

/-- Reducible rational multiplication; equal to a * b. -/
def qMul (a b : ℚ) : ℚ := Rat.divInt (a.num * b.num) (a.den * b.den)

/-- Reducible rational negation; equal to -a. -/
def qNeg (a : ℚ) : ℚ := Rat.divInt (-a.num) a.den

/-- Reducible rational division; equal to a / b (0 when b = 0). -/
def qDiv (a b : ℚ) : ℚ := Rat.divInt (a.num * b.den) (a.den * b.num)

/-- A JavaScript number: an exact rational, NaN, Infinity or -Infinity. -/
inductive JSNum where
  | fin : ℚ → JSNum
  | nan : JSNum
  | inf : JSNum
  | ninf : JSNum
deriving DecidableEq, Repr

/-- JS negation. -/
def jsNeg : JSNum → JSNum
  | .fin a => .fin (qNeg a)
  | .nan => .nan
  | .inf => .ninf
  | .ninf => .inf

/-- JS addition (IEEE semantics on the special values). -/
def jsAdd : JSNum → JSNum → JSNum
  | .nan, _ => .nan
  | _, .nan => .nan
  | .fin a, .fin b => .fin (qAdd a b)
  | .fin _, .inf => .inf
  | .fin _, .ninf => .ninf
  | .inf, .fin _ => .inf
  | .ninf, .fin _ => .ninf
  | .inf, .inf => .inf
  | .ninf, .ninf => .ninf
  | .inf, .ninf => .nan
  | .ninf, .inf => .nan

/-- JS subtraction. -/
def jsSub (a b : JSNum) : JSNum := jsAdd a (jsNeg b)

/-- JS multiplication (IEEE semantics on the special values). -/
def jsMul : JSNum → JSNum → JSNum
  | .nan, _ => .nan
  | _, .nan => .nan
  | .fin a, .fin b => .fin (qMul a b)
  | .fin a, .inf => if 0 < a then .inf else if a < 0 then .ninf else .nan
  | .fin a, .ninf => if 0 < a then .ninf else if a < 0 then .inf else .nan
  | .inf, .fin b => if 0 < b then .inf else if b < 0 then .ninf else .nan
  | .ninf, .fin b => if 0 < b then .ninf else if b < 0 then .inf else .nan
  | .inf, .inf => .inf
  | .inf, .ninf => .ninf
  | .ninf, .inf => .ninf
  | .ninf, .ninf => .inf

/-- JS division (IEEE semantics; the sign of zero is not modelled, a finite
quantity divided by zero follows the sign of the numerator). -/
def jsDiv : JSNum → JSNum → JSNum
  | .nan, _ => .nan
  | _, .nan => .nan
  | .fin a, .fin b =>
      if b ≠ 0 then .fin (qDiv a b)
      else if 0 < a then .inf else if a < 0 then .ninf else .nan
  | .fin _, .inf => .fin 0
  | .fin _, .ninf => .fin 0
  | .inf, .fin b => if 0 ≤ b then .inf else .ninf
  | .ninf, .fin b => if 0 ≤ b then .ninf else .inf
  | .inf, _ => .nan
  | .ninf, _ => .nan

/-- JS strict less-than; any comparison involving NaN is false. -/
def jsLt : JSNum → JSNum → Bool
  | .fin a, .fin b => decide (a < b)
  | .fin _, .inf => true
  | .ninf, .fin _ => true
  | .ninf, .inf => true
  | _, _ => false

/-- JS strict greater-than. -/
def jsGt (a b : JSNum) : Bool := jsLt b a

/-- JS greater-or-equal; any comparison involving NaN is false. -/
def jsGe : JSNum → JSNum → Bool
  | .nan, _ => false
  | _, .nan => false
  | a, b => !(jsLt a b)

/-- JS isFinite. -/
def jsIsFinite : JSNum → Bool
  | .fin _ => true
  | _ => false

/-- JS isNaN. -/
def jsIsNaN : JSNum → Bool
  | .nan => true
  | _ => false

/-- Math.max of two values: NaN-poisoning, otherwise the larger. -/
def jsMax2 (a b : JSNum) : JSNum :=
  match a, b with
  | .nan, _ => .nan
  | _, .nan => .nan
  | x, y => if jsLt x y then y else x

/-- Math.min of two values: NaN-poisoning, otherwise the smaller. -/
def jsMin2 (a b : JSNum) : JSNum :=
  match a, b with
  | .nan, _ => .nan
  | _, .nan => .nan
  | x, y => if jsLt y x then y else x

/-- Math.max spread over an array: starts from -Infinity (Math.max() of an
empty argument list), NaN poisons the result. -/
def jsMaxList (l : List JSNum) : JSNum := l.foldl jsMax2 .ninf

/-- Math.sqrt lifted through the abstract rational square root `sq`.
Math.sqrt is exact at 0 and NaN on negative inputs. -/
def jsSqrt (sq : ℚ → ℚ) : JSNum → JSNum
  | .fin q => if q < 0 then .nan else if q = 0 then .fin 0 else .fin (sq q)
  | .nan => .nan
  | .inf => .inf
  | .ninf => .nan

/-- Math.acos lifted through the abstract rational arccosine `ac`; NaN
outside [-1, 1] and on every non-finite input. -/
def jsAcos (ac : ℚ → ℚ) : JSNum → JSNum
  | .fin q => if q < mkRat (-1) 1 ∨ 1 < q then .nan else .fin (ac q)
  | _ => .nan

/-- Math.pow(x, 2) as used by euclideanDistance. -/
def jsPow2 (x : JSNum) : JSNum := jsMul x x

/-- One hand landmark: a point `{x, y, z}`. -/
structure Landmark where
  x : JSNum
  y : JSNum
  z : JSNum
deriving DecidableEq, Repr

/-- Kernel-reducible natural square root (Nat.sqrt does not reduce in the
kernel): the largest k ≤ n with k * k ≤ n. -/
def natSqrt (n : ℕ) : ℕ :=
  (List.range (n + 1)).foldl (fun acc k => if k * k ≤ n then k else acc) 0

/-- Rational square root used to instantiate the abstract `sq` parameter on
concrete inputs; exact whenever numerator and denominator are perfect
squares. -/
def ratSqrt (q : ℚ) : ℚ := Rat.divInt (natSqrt q.num.toNat) (natSqrt q.den)

/-- Stand-in rational arccosine for concrete evaluation; no claim in this
development depends on the numeric value of an angle. -/
def ratAcos (_ : ℚ) : ℚ := 0

/-- Pointwise difference `point - wrist` used by normalizeLandmarks. -/
def subLandmark (point wrist : Landmark) : Landmark :=
  ⟨jsSub point.x wrist.x, jsSub point.y wrist.y, jsSub point.z wrist.z⟩

/-- Squared magnitude `x*x + y*y + z*z` (the radicand of the distance
computation in normalizeLandmarks and calculateAngle). -/
def sqMag (point : Landmark) : JSNum :=
  jsAdd (jsAdd (jsMul point.x point.x) (jsMul point.y point.y)) (jsMul point.z point.z)

/-- Translation step of normalizeLandmarks: subtract the wrist
(`landmarks[0]`) from every landmark.  On the empty list the JS map produces
the empty list. -/
def translated (landmarks : List Landmark) : List Landmark :=
  match landmarks with
  | [] => []
  | wrist :: _ => landmarks.map (fun point => subLandmark point wrist)

/-- Distances of the translated landmarks from the origin. -/
def distancesOf (sq : ℚ → ℚ) (landmarks : List Landmark) : List JSNum :=
  (translated landmarks).map (fun point => jsSqrt sq (sqMag point))

/-- maxDistance of normalizeLandmarks: Math.max over the strictly positive
distances. -/
def maxDistanceOf (sq : ℚ → ℚ) (landmarks : List Landmark) : JSNum :=
  jsMaxList ((distancesOf sq landmarks).filter (fun d => jsGt d (.fin 0)))

/-- Scaling step of normalizeLandmarks: divide every coordinate by
maxDistance. -/
def scaleLandmark (maxDistance : JSNum) (point : Landmark) : Landmark :=
  ⟨jsDiv point.x maxDistance, jsDiv point.y maxDistance, jsDiv point.z maxDistance⟩

/-- normalizeLandmarks (preprocessing.js lines 23-46): translate by the
wrist, compute the maximal positive distance, and divide by it unless it is
zero or non-finite. -/
def normalizeLandmarks (sq : ℚ → ℚ) (landmarks : List Landmark) : List Landmark :=
  let normalized := translated landmarks
  let maxDistance := maxDistanceOf sq landmarks
  if maxDistance = .fin 0 ∨ jsIsFinite maxDistance = false then
    normalized
  else
    normalized.map (scaleLandmark maxDistance)

/-- euclideanDistance (preprocessing.js lines 225-232): Infinity on length
mismatch, otherwise the square root of the summed squared differences. -/
def euclideanDistance (sq : ℚ → ℚ) (a b : List JSNum) : JSNum :=
  if a.length ≠ b.length then .inf
  else jsSqrt sq ((List.zip a b).foldl (fun sum p => jsAdd sum (jsPow2 (jsSub p.1 p.2))) (.fin 0))

/-- calculateAngle (preprocessing.js lines 98-112): clamped-arccosine of the
normalized dot product of the rays `p2→p1` and `p2→p3`; 0 when either ray has
zero magnitude. -/
def calculateAngle (sq ac : ℚ → ℚ) (p1 p2 p3 : Landmark) : JSNum :=
  let v1 := subLandmark p1 p2
  let v2 := subLandmark p3 p2
  let dot := jsAdd (jsAdd (jsMul v1.x v2.x) (jsMul v1.y v2.y)) (jsMul v1.z v2.z)
  let mag1 := jsSqrt sq (sqMag v1)
  let mag2 := jsSqrt sq (sqMag v2)
  if mag1 = .fin 0 ∨ mag2 = .fin 0 then .fin 0
  else
    let cosAngle := jsDiv dot (jsMul mag1 mag2)
    let clampedCos := jsMax2 (.fin (mkRat (-1) 1)) (jsMin2 (.fin 1) cosAngle)
    jsAcos ac clampedCos

/-- Placeholder landmark for an out-of-range index; the JS source would crash
on such an access, every claim constrains the input to 21 landmarks where the
placeholder is never reached. -/
def defaultLandmark : Landmark := ⟨.nan, .nan, .nan⟩

/-- Raw-coordinate segment of extractFeatures: x, y, z of every landmark in
order. -/
def coordsOf (landmarks : List Landmark) : List JSNum :=
  landmarks.flatMap (fun point => [point.x, point.y, point.z])

/-- Fingertip landmark indices. -/
def fingerTips : List ℕ := [4, 8, 12, 16, 20]

/-- Finger base landmark indices. -/
def fingerBases : List ℕ := [2, 5, 9, 13, 17]

/-- Fingertip-to-base distance segment of extractFeatures. -/
def fingerDistsOf (sq : ℚ → ℚ) (landmarks : List Landmark) : List JSNum :=
  (List.range fingerTips.length).map (fun i =>
    let tip := landmarks.getD (fingerTips.getD i 0) defaultLandmark
    let base := landmarks.getD (fingerBases.getD i 0) defaultLandmark
    euclideanDistance sq [tip.x, tip.y, tip.z] [base.x, base.y, base.z])

/-- Palm anchor landmark indices. -/
def palmPoints : List ℕ := [0, 1, 5, 9, 13, 17]

/-- Palm pairwise distance segment of extractFeatures: the nested
`for i, for j = i+1` loops over the 6 palm points. -/
def palmDistsOf (sq : ℚ → ℚ) (landmarks : List Landmark) : List JSNum :=
  (List.range palmPoints.length).flatMap (fun i =>
    ((List.range palmPoints.length).filter (fun j => decide (i < j))).map (fun j =>
      let p1 := landmarks.getD (palmPoints.getD i 0) defaultLandmark
      let p2 := landmarks.getD (palmPoints.getD j 0) defaultLandmark
      euclideanDistance sq [p1.x, p1.y, p1.z] [p2.x, p2.y, p2.z]))

/-- Joint-triplet angle segment of extractFeatures: the angle at landmark i
between landmarks i-1 and i+1, for every i with 0 < i and i+1 < length. -/
def anglesOf (sq ac : ℚ → ℚ) (landmarks : List Landmark) : List JSNum :=
  ((List.range landmarks.length).filter
      (fun i => decide (0 < i) && decide (i + 1 < landmarks.length))).map
    (fun i => calculateAngle sq ac
      (landmarks.getD (i - 1) defaultLandmark)
      (landmarks.getD i defaultLandmark)
      (landmarks.getD (i + 1) defaultLandmark))

/-- extractFeatures (preprocessing.js lines 48-96): raw coordinates, finger
distances, palm pairwise distances and joint angles, concatenated in that
order, then filtered down to the finite entries. -/
def extractFeatures (sq ac : ℚ → ℚ) (landmarks : List Landmark) : List JSNum :=
  (coordsOf landmarks ++ fingerDistsOf sq landmarks ++ palmDistsOf sq landmarks ++
    anglesOf sq ac landmarks).filter (fun f => !(jsIsNaN f) && jsIsFinite f)

/-- Finiteness of all three coordinates of a landmark. -/
def finiteLandmark (p : Landmark) : Prop :=
  jsIsFinite p.x = true ∧ jsIsFinite p.y = true ∧ jsIsFinite p.z = true

instance (p : Landmark) : Decidable (finiteLandmark p) := by
  unfold finiteLandmark; infer_instance

/-- Scale a landmark by the rational k and translate it by t (the transformed
sample of the normalization-invariance property). -/
def scaleTranslateLandmark (k : ℚ) (t p : Landmark) : Landmark :=
  ⟨jsAdd (jsMul (.fin k) p.x) t.x,
   jsAdd (jsMul (.fin k) p.y) t.y,
   jsAdd (jsMul (.fin k) p.z) t.z⟩

/-- Detection settings consumed by predictSign; only confidenceThreshold is
read. -/
structure DetectionSettings where
  confidenceThreshold : Option JSNum

/-- Effective threshold of predictSign line 204, `settings.confidenceThreshold
|| 0.7`: undefined, 0 and NaN are falsy in JS and fall back to 0.7. -/
def effectiveThreshold (settings : DetectionSettings) : JSNum :=
  match settings.confidenceThreshold with
  | none => .fin (mkRat 7 10)
  | some v => if v = .fin 0 ∨ v = .nan then .fin (mkRat 7 10) else v

/-- Classifier slot of a stored model: the serialized network is external
(brain.js); its forward pass is modelled as an opaque function from the
feature vector to the per-label score association list (Object.keys order =
insertion order). -/
structure NetworkClassifier where
  network : Option (List JSNum → List (String × JSNum))

/-- The part of a stored model record that predictSign reads. -/
structure PredictModel where
  classifier : Option NetworkClassifier

/-- Result object of predictSign; allPredictions is absent on the guard
paths. -/
structure Prediction where
  sign : String
  confidence : JSNum
  allPredictions : Option (List (String × JSNum))

/-- Maximum-score scan of predictSign lines 193-202: fold over the per-label
scores keeping (maxConfidence, predictedSign), starting from (0, UNKNOWN);
a score is taken only when strictly greater than the running maximum. -/
def maxPrediction (prediction : List (String × JSNum)) : JSNum × String :=
  prediction.foldl
    (fun acc p => if jsGt p.2 acc.1 then (p.2, p.1) else acc)
    (.fin 0, "UNKNOWN")

/-- Final clamp of predictSign line 215: Math.min(0.99, Math.max(0.01, c)). -/
def clampConfidence (c : JSNum) : JSNum :=
  jsMin2 (.fin (mkRat 99 100)) (jsMax2 (.fin (mkRat 1 100)) c)

/-- predictSign (preprocessing.js lines 168-223).  The try/catch ERROR path
cannot arise in this pure embedding; the UNKNOWN guard, the INVALID feature
guard, the maximum-score scan, the uncertainty override and the clamp are
modelled exactly. -/
def predictSign (sq ac : ℚ → ℚ) (model : PredictModel) (landmarks : List Landmark)
    (settings : DetectionSettings) : Prediction :=
  match model.classifier with
  | none => ⟨"UNKNOWN", .fin 0, none⟩
  | some classifier =>
    match classifier.network with
    | none => ⟨"UNKNOWN", .fin 0, none⟩
    | some net =>
      let features := extractFeatures sq ac (normalizeLandmarks sq landmarks)
      if features.length = 0 ∨ features.any (fun f => jsIsNaN f || !(jsIsFinite f)) then
        ⟨"INVALID", .fin 0, none⟩
      else
        let prediction := net features
        let m := maxPrediction prediction
        let confidenceThreshold := effectiveThreshold settings
        if jsLt m.1 (jsMul confidenceThreshold (.fin (mkRat 1 2))) then
          ⟨"UNCERTAIN", clampConfidence (jsMul m.1 (.fin (mkRat 1 2))), some prediction⟩
        else
          ⟨m.2, clampConfidence m.1, some prediction⟩

/-- Confidence is a finite value in the closed interval [0.01, 0.99]. -/
def confidenceInRange (p : Prediction) : Prop :=
  ∃ c : ℚ, p.confidence = .fin c ∧ 1 / 100 ≤ c ∧ c ≤ 99 / 100

/-- Practice-feedback classification of sessions.js lines 191-223, as a pure
function of the predicted sign, the expected sign and the confidence.  The
code reports status incorrect where the spec names the same category
mismatch. -/
def practiceStatus (predictedSign expectedSign : String) (confidence : JSNum) : String :=
  let isCorrect := (predictedSign == expectedSign) && jsGe confidence (.fin (mkRat 7 10))
  let isPartiallyCorrect := (predictedSign == expectedSign) && jsGe confidence (.fin (mkRat 5 10))
  if isCorrect then "success"
  else if isPartiallyCorrect then "partial"
  else if jsGe confidence (.fin (mkRat 4 10)) then "incorrect"
  else "unclear"

/-- Decision table written from the words of the spec (section 4.5), for
comparison with practiceStatus: row 3 requires the labels to differ.  The
category the spec names mismatch is rendered with the code string
incorrect. -/
def specFeedbackTable (predictedLabel expectedLabel : String) (confidence : JSNum) : String :=
  if (predictedLabel == expectedLabel) && jsGe confidence (.fin (mkRat 7 10)) then "success"
  else if (predictedLabel == expectedLabel) && jsGe confidence (.fin (mkRat 5 10))
      && jsLt confidence (.fin (mkRat 7 10)) then "partial"
  else if (predictedLabel != expectedLabel) && jsGe confidence (.fin (mkRat 4 10)) then "incorrect"
  else "unclear"

/-- Amended decision table: identical to the spec table except that row 3
fires on confidence >= 0.4 alone, with no condition on the labels (this is
what the code does). -/
def amendedFeedbackTable (predictedLabel expectedLabel : String) (confidence : JSNum) : String :=
  if (predictedLabel == expectedLabel) && jsGe confidence (.fin (mkRat 7 10)) then "success"
  else if (predictedLabel == expectedLabel) && jsGe confidence (.fin (mkRat 5 10))
      && jsLt confidence (.fin (mkRat 7 10)) then "partial"
  else if jsGe confidence (.fin (mkRat 4 10)) then "incorrect"
  else "unclear"

/-- Insertion-ordered deduplication: the `[...new Set(labels)]` of
trainClassifier (a JS Set keeps first occurrences in insertion order). -/
def setDedup (labels : List String) : List String :=
  labels.foldl (fun acc l => if l ∈ acc then acc else acc ++ [l]) []

/-- Kernel-reducible lexicographic comparison of character lists by code
point (the decidability instances of the builtin String order do not reduce
in the kernel). -/
def charListLe : List Char → List Char → Bool
  | [], _ => true
  | _ :: _, [] => false
  | a :: as, b :: bs =>
    if a.val.toNat < b.val.toNat then true
    else if b.val.toNat < a.val.toNat then false
    else charListLe as bs

/-- Lexicographic string comparison by code point. -/
def strLe (a b : String) : Bool := charListLe a.data b.data

/-- Insert a string into a sorted list of strings. -/
def insertLe (s : String) : List String → List String
  | [] => [s]
  | t :: ts => if strLe s t then s :: t :: ts else t :: insertLe s ts

/-- Insertion sort of strings in lexicographic order. -/
def sortLabels : List String → List String
  | [] => []
  | s :: ss => insertLe s (sortLabels ss)

/-- Sorted-unique label list as the words of the spec describe it (distinct
labels in sorted order), for comparison with what trainClassifier stores. -/
def sortedUniqueLabels (labels : List String) : List String :=
  sortLabels (setDedup labels)

/-- Iterations/error summary returned by brain.js net.train; external to the
repository, passed through verbatim. -/
structure TrainStats where
  iterations : ℕ
  error : ℚ
deriving DecidableEq, Repr

/-- Classifier artifact built by trainClassifier; network holds the
serialized state net.toJSON() produces (external, opaque). -/
structure ClassifierArtifact where
  type : String
  network : String
  uniqueLabels : List String
  trained : Bool
  timestamp : String
  stats : TrainStats
  featureLength : ℕ
deriving DecidableEq, Repr

/-- Preprocessed training data: parallel feature and label arrays. -/
structure TrainData where
  features : List (List JSNum)
  labels : List String
deriving DecidableEq, Repr

/-- trainClassifier (preprocessing.js lines 114-166).  The brain.js network
training, serialization and the wall clock are external: the serialized state,
the statistics and the timestamp enter as parameters; the guards, the label
deduplication and the artifact assembly are modelled exactly.  Throws are
modelled as Except.error. -/
def trainClassifier (netState : String) (stats : TrainStats) (timestamp : String)
    (data : TrainData) : Except String ClassifierArtifact :=
  if data.features.length = 0 then .error "No training data available"
  else
    let uniqueLabels := setDedup data.labels
    if uniqueLabels.length < 2 then .error "Need at least 2 different signs to train"
    else .ok
      { type := "neural_network"
        network := netState
        uniqueLabels := uniqueLabels
        trained := true
        timestamp := timestamp
        stats := stats
        featureLength := (data.features.headI).length }

/-- A stored training sample: a sign label with its captured landmarks. -/
structure StoredSample where
  sign : String
  landmarks : List Landmark
deriving DecidableEq, Repr

/-- preprocessLandmarks (preprocessing.js lines 4-21): keep the samples with
exactly 21 landmarks whose extracted features are all finite, collecting
parallel feature and label arrays. -/
def preprocessLandmarks (sq ac : ℚ → ℚ) (samples : List StoredSample) : TrainData :=
  let valid := samples.filterMap (fun sample =>
    if sample.landmarks.length = 21 then
      let features := extractFeatures sq ac (normalizeLandmarks sq sample.landmarks)
      if features.all (fun f => !(jsIsNaN f) && jsIsFinite f) then
        some (features, sample.sign)
      else none
    else none)
  ⟨valid.map (fun v => v.1), valid.map (fun v => v.2)⟩

/-- The part of a stored model record that the train route reads and
writes. -/
structure StoredModel where
  samples : List StoredSample
  classifier : Option ClassifierArtifact
deriving DecidableEq, Repr

/-- addSamplesToModel of the ModelStorage module (backend/models, the class
ModelStorage whose addSamplesToModel spreads the existing samples and the new
samples into an updated list and passes it to updateModel, which merges the
update over the stored record): the request samples are appended to the
stored sample list and every other field the train route reads, in particular
the classifier, is unchanged.  StoredModel carries only the fields the route
reads and writes; the updatedAt timestamp updateModel adds and the file I/O
are not modelled. -/
def addSamplesToModel (model : StoredModel) (samples : List StoredSample) : StoredModel :=
  { model with samples := model.samples ++ samples }

/-- Signs occurring in the sample list, in first-occurrence order (the
Object.keys order of the signCounts object built by the train route). -/
def signsInOrder (samples : List StoredSample) : List String :=
  setDedup (samples.map (fun s => s.sign))

/-- Number of samples carrying the given sign (the signCounts entry). -/
def signCount (samples : List StoredSample) (sign : String) : ℕ :=
  (samples.filter (fun s => s.sign == sign)).length

/-- Outcome of the train route, one constructor per response site. -/
inductive TrainRouteResult where
  | invalidData
  | modelNotFound
  | needTwoSamples
  | insufficientSamples (signs : List String)
  | trained (artifact : ClassifierArtifact)
  | trainFailed (msg : String)
deriving DecidableEq, Repr

/-- Train route (sessions.js lines 296-372): request validation, sample
accumulation, the two sample-count guards, preprocessing, training and the
model update.  Returns the response together with the stored-model state
after the request.  The synthetic trainingProgress/signAccuracy decoration of
the success response is cosmetic and not modelled. -/
def routeTrain (sq ac : ℚ → ℚ) (netState : String) (stats : TrainStats) (timestamp : String)
    (model : Option StoredModel) (reqSamples : List StoredSample) :
    TrainRouteResult × Option StoredModel :=
  if reqSamples.length = 0 then (.invalidData, model)
  else
    match model with
    | none => (.modelNotFound, none)
    | some m =>
      let updated := addSamplesToModel m reqSamples
      let allSamples := updated.samples
      if allSamples.length < 2 then (.needTwoSamples, some updated)
      else
        let insufficientSigns :=
          (signsInOrder allSamples).filter (fun sign => decide (signCount allSamples sign < 3))
        if insufficientSigns ≠ [] then (.insufficientSamples insufficientSigns, some updated)
        else
          match trainClassifier netState stats timestamp (preprocessLandmarks sq ac allSamples) with
          | .error msg => (.trainFailed msg, some updated)
          | .ok classifier => (.trained classifier, some { updated with classifier := some classifier })

/-- Witness input: the wrist at the origin and 20 landmarks at x = 1. -/
def unitLandmarks : List Landmark :=
  ⟨.fin 0, .fin 0, .fin 0⟩ :: List.replicate 20 ⟨.fin 1, .fin 0, .fin 0⟩

/-- Witness input for the non-finite claims: landmark 1 carries a NaN x
coordinate, the rest are finite. -/
def nanLandmarks : List Landmark :=
  (List.range 21).map (fun i =>
    if i = 1 then ⟨.nan, .fin 0, .fin 0⟩
    else if i = 0 then ⟨.fin 0, .fin 0, .fin 0⟩
    else ⟨.fin 1, .fin 0, .fin 0⟩)

/-- Witness model: a trained classifier whose network always scores label A
at 0.8. -/
def witnessModelA : PredictModel :=
  ⟨some ⟨some (fun _ => [("A", .fin (mkRat 4 5))])⟩⟩

/-- Witness model: a trained classifier whose network always scores label A
at 0.1 (below half of the default threshold). -/
def witnessModelLow : PredictModel :=
  ⟨some ⟨some (fun _ => [("A", .fin (mkRat 1 10))])⟩⟩

/-- Witness settings with no configured threshold. -/
def defaultSettings : DetectionSettings := ⟨none⟩

theorem ratNum_eq_mul_den (a : ℚ) : (a.num : ℚ) = a * a.den := by
  have ha : (a.den : ℚ) ≠ 0 := by exact_mod_cast a.den_nz
  exact (div_eq_iff ha).mp (Rat.num_div_den a)

theorem qAdd_eq (a b : ℚ) : qAdd a b = a + b := by
  have ha : (a.den : ℚ) ≠ 0 := by exact_mod_cast a.den_nz
  have hb : (b.den : ℚ) ≠ 0 := by exact_mod_cast b.den_nz
  rw [qAdd, Rat.divInt_eq_div]
  push_cast
  rw [div_eq_iff (mul_ne_zero ha hb), ratNum_eq_mul_den a, ratNum_eq_mul_den b]
  ring

theorem qMul_eq (a b : ℚ) : qMul a b = a * b := by
  have ha : (a.den : ℚ) ≠ 0 := by exact_mod_cast a.den_nz
  have hb : (b.den : ℚ) ≠ 0 := by exact_mod_cast b.den_nz
  rw [qMul, Rat.divInt_eq_div]
  push_cast
  rw [div_eq_iff (mul_ne_zero ha hb), ratNum_eq_mul_den a, ratNum_eq_mul_den b]
  ring

theorem qNeg_eq (a : ℚ) : qNeg a = -a := by
  rw [qNeg, Rat.divInt_eq_div]
  push_cast
  rw [neg_div, Rat.num_div_den]

theorem qDiv_eq (a b : ℚ) : qDiv a b = a / b := by
  rcases eq_or_ne b 0 with rb | rb
  · subst rb
    simp [qDiv, Rat.divInt_eq_div]
  · have ha : (a.den : ℚ) ≠ 0 := by exact_mod_cast a.den_nz
    have hbn : (b.num : ℚ) ≠ 0 := by exact_mod_cast Rat.num_ne_zero.mpr rb
    rw [qDiv, Rat.divInt_eq_div]
    push_cast
    rw [div_eq_div_iff (mul_ne_zero ha hbn) rb, ratNum_eq_mul_den a, ratNum_eq_mul_den b]
    ring

theorem mkRat_sevenTenths : mkRat 7 10 = (7 / 10 : ℚ) := by
  rw [Rat.mkRat_eq_div]; norm_num

theorem mkRat_half : mkRat 1 2 = (1 / 2 : ℚ) := by
  rw [Rat.mkRat_eq_div]; norm_num

theorem mkRat_fiveTenths : mkRat 5 10 = (1 / 2 : ℚ) := by
  rw [Rat.mkRat_eq_div]; norm_num

theorem mkRat_fourTenths : mkRat 4 10 = (2 / 5 : ℚ) := by
  rw [Rat.mkRat_eq_div]; norm_num

theorem mkRat_ninetyNine : mkRat 99 100 = (99 / 100 : ℚ) := by
  rw [Rat.mkRat_eq_div]; norm_num

theorem mkRat_oneHundredth : mkRat 1 100 = (1 / 100 : ℚ) := by
  rw [Rat.mkRat_eq_div]; norm_num

theorem mkRat_negOne : mkRat (-1) 1 = (-1 : ℚ) := by
  rw [Rat.mkRat_eq_div]; norm_num

theorem jsAdd_fin (a b : ℚ) : jsAdd (.fin a) (.fin b) = .fin (a + b) := by
  simp [jsAdd, qAdd_eq]

theorem jsMul_fin (a b : ℚ) : jsMul (.fin a) (.fin b) = .fin (a * b) := by
  simp [jsMul, qMul_eq]

theorem jsSub_fin (a b : ℚ) : jsSub (.fin a) (.fin b) = .fin (a - b) := by
  simp only [jsSub, jsNeg, jsAdd, qAdd_eq, qNeg_eq]
  ring_nf

theorem jsDiv_fin (a b : ℚ) (hb : b ≠ 0) : jsDiv (.fin a) (.fin b) = .fin (a / b) := by
  simp [jsDiv, hb, qDiv_eq]

/-- C4 counterexample: with equal labels and confidence 0.45 the code reports
the mismatch category (status string incorrect), while the decision table of
the spec assigns unclear; the two tables disagree at this input. -/
theorem practiceStatus_equal_low_counterexample :
    practiceStatus "A" "A" (.fin (mkRat 45 100)) = "incorrect"
    ∧ specFeedbackTable "A" "A" (.fin (mkRat 45 100)) = "unclear"
    ∧ ("incorrect" : String) ≠ "unclear" := by
  refine ⟨by decide, by decide, by decide⟩

theorem jsLt_of_ge_of_not_ge (c : JSNum) (x y : ℚ) (h1 : jsGe c (.fin x) = true)
    (h2 : jsGe c (.fin y) = false) : jsLt c (.fin y) = true := by
  cases c with
  | fin q =>
    simp [jsGe, jsLt] at h1 h2 ⊢
    exact h2
  | nan => simp [jsGe] at h1
  | inf => simp [jsGe, jsLt] at h2
  | ninf => simp [jsGe, jsLt] at h1

/-- C4 amended: the practice-feedback classification equals the four-row
decision table in which rows 1 and 2 are as the spec states them and row 3
fires on confidence >= 0.4 alone, with no condition on label equality; every
(label pair, confidence) input maps to exactly the category that amended
table assigns. -/
theorem practiceStatus_eq_amendedFeedbackTable (p e : String) (c : JSNum) :
    practiceStatus p e c = amendedFeedbackTable p e c := by
  by_cases h7 : jsGe c (.fin (mkRat 7 10)) = true
  · by_cases hpe : p = e <;> simp [practiceStatus, amendedFeedbackTable, h7, hpe]
  · have h7f : jsGe c (.fin (mkRat 7 10)) = false := by
      simpa using h7
    by_cases h5 : jsGe c (.fin (mkRat 5 10)) = true
    · have hl7 := jsLt_of_ge_of_not_ge c (mkRat 5 10) (mkRat 7 10) h5 h7f
      simp [practiceStatus, amendedFeedbackTable, h7f, h5, hl7]
    · have h5f : jsGe c (.fin (mkRat 5 10)) = false := by
        simpa using h5
      simp [practiceStatus, amendedFeedbackTable, h7f, h5f]

theorem setDedup_go_mem (l acc : List String) (a : String) :
    a ∈ List.foldl (fun acc l => if l ∈ acc then acc else acc ++ [l]) acc l
      ↔ a ∈ acc ∨ a ∈ l := by
  induction l generalizing acc with
  | nil => simp
  | cons x xs ih =>
    simp only [List.foldl_cons, ih, List.mem_cons]
    by_cases hx : x ∈ acc
    · simp only [if_pos hx]
      constructor
      · rintro (h | h)
        · exact Or.inl h
        · exact Or.inr (Or.inr h)
      · rintro (h | h | h)
        · exact Or.inl h
        · exact Or.inl (h ▸ hx)
        · exact Or.inr h
    · simp only [if_neg hx, List.mem_append, List.mem_singleton]
      tauto

theorem setDedup_go_nodup (l acc : List String) (hacc : acc.Nodup) :
    (List.foldl (fun acc l => if l ∈ acc then acc else acc ++ [l]) acc l).Nodup := by
  induction l generalizing acc with
  | nil => simpa
  | cons x xs ih =>
    simp only [List.foldl_cons]
    by_cases hx : x ∈ acc
    · simp only [if_pos hx]
      exact ih acc hacc
    · simp only [if_neg hx]
      refine ih (acc ++ [x]) ?_
      simp [List.nodup_append, hacc, hx]

theorem mem_setDedup (l : List String) (a : String) : a ∈ setDedup l ↔ a ∈ l := by
  unfold setDedup
  rw [setDedup_go_mem]
  simp

theorem setDedup_nodup (l : List String) : (setDedup l).Nodup := by
  unfold setDedup
  exact setDedup_go_nodup l [] List.nodup_nil

/-- C8 counterexample: training on labels observed in the order B, A, B
stores uniqueLabels = [B, A], which is the first-occurrence order of a JS
Set and not the sorted-unique list [A, B] the spec describes. -/
theorem trainClassifier_labels_not_sorted_counterexample :
    trainClassifier "net" ⟨100, mkRat 3 1000⟩ "t"
        ⟨[[.fin 0], [.fin 0], [.fin 0]], ["B", "A", "B"]⟩
      = .ok ⟨"neural_network", "net", ["B", "A"], true, "t", ⟨100, mkRat 3 1000⟩, 1⟩
    ∧ sortedUniqueLabels ["B", "A", "B"] = ["A", "B"]
    ∧ (["B", "A"] : List String) ≠ ["A", "B"] := by
  refine ⟨rfl, by decide, by decide⟩

/-- C8 amended: the artifact trainClassifier returns carries the distinct
labels observed in the training samples in first-occurrence order (the
insertion order of a JS Set, not sorted), together with the serialized
network state and the training statistics. -/
theorem trainClassifier_uniqueLabels_insertion_order (n : String) (s : TrainStats)
    (t : String) (d : TrainData) (art : ClassifierArtifact)
    (h : trainClassifier n s t d = .ok art) :
    art.uniqueLabels = setDedup d.labels ∧ art.uniqueLabels.Nodup ∧
    (∀ l, l ∈ art.uniqueLabels ↔ l ∈ d.labels) ∧ art.network = n ∧ art.stats = s := by
  unfold trainClassifier at h
  by_cases h1 : d.features.length = 0
  · rw [if_pos h1] at h
    exact absurd h (by simp)
  · rw [if_neg h1] at h
    by_cases h2 : (setDedup d.labels).length < 2
    · rw [if_pos h2] at h
      exact absurd h (by simp)
    · rw [if_neg h2] at h
      cases h
      refine ⟨rfl, setDedup_nodup _, fun l => mem_setDedup _ _, rfl, rfl⟩

/-- C8 witness instantiation. -/
theorem trainClassifier_uniqueLabels_insertion_order_witness :
    (⟨"neural_network", "net", ["B", "A"], true, "t", ⟨100, mkRat 3 1000⟩, 1⟩ :
      ClassifierArtifact).uniqueLabels = setDedup ["B", "A", "B"] :=
  (trainClassifier_uniqueLabels_insertion_order "net" ⟨100, mkRat 3 1000⟩ "t"
    ⟨[[.fin 0], [.fin 0], [.fin 0]], ["B", "A", "B"]⟩
    ⟨"neural_network", "net", ["B", "A"], true, "t", ⟨100, mkRat 3 1000⟩, 1⟩ rfl).1

/-- C10 counterexample: a model with no stored samples receiving one sample
of sign A is rejected with the generic two-samples error, although sign A has
fewer than 3 samples; the response does not list the insufficient sign. -/
theorem routeTrain_generic_error_counterexample :
    (routeTrain ratSqrt ratAcos "net" ⟨0, 0⟩ "t" (some ⟨[], none⟩) [⟨"A", []⟩]).1
      = .needTwoSamples
    ∧ signCount ([] ++ [⟨"A", []⟩]) "A" < 3
    ∧ (TrainRouteResult.needTwoSamples ≠ .insufficientSamples ["A"]) := by
  refine ⟨by decide, by decide, by decide⟩

/-- C10 amended: whenever the accumulated samples leave some sign with fewer
than 3 samples, the train route rejects the request: no classifier is trained
or attached and the stored classifier is unchanged; when moreover at least 2
samples are accumulated, the response lists exactly the insufficient signs in
first-occurrence order (with fewer than 2 accumulated samples a generic error
is returned instead). -/
theorem routeTrain_insufficient_rejects (sq ac : ℚ → ℚ) (n : String) (s : TrainStats)
    (t : String) (m : StoredModel) (req : List StoredSample)
    (h1 : req ≠ [])
    (h2 : ∃ sign ∈ signsInOrder (m.samples ++ req),
      signCount (m.samples ++ req) sign < 3) :
    (∀ art, (routeTrain sq ac n s t (some m) req).1 ≠ .trained art) ∧
    (routeTrain sq ac n s t (some m) req).2 = some (addSamplesToModel m req) ∧
    (addSamplesToModel m req).classifier = m.classifier ∧
    (2 ≤ (m.samples ++ req).length →
      (routeTrain sq ac n s t (some m) req).1 =
        .insufficientSamples ((signsInOrder (m.samples ++ req)).filter
          (fun sign => decide (signCount (m.samples ++ req) sign < 3)))) := by
  have hreq : ¬(req.length = 0) := by
    simpa [List.length_eq_zero] using h1
  unfold routeTrain addSamplesToModel
  dsimp only
  rw [if_neg hreq]
  split_ifs with hlen hne2
  · exact ⟨(fun art h => by cases h), rfl, rfl, fun hge => absurd hge (by omega)⟩
  · exact ⟨(fun art h => by cases h), rfl, rfl, fun _ => rfl⟩
  · exfalso
    obtain ⟨sign, hsign, hcount⟩ := h2
    apply hne2
    intro hempty
    have hmem : sign ∈ (signsInOrder (m.samples ++ req)).filter
        (fun sign => decide (signCount (m.samples ++ req) sign < 3)) := by
      rw [List.mem_filter]
      exact ⟨hsign, by simpa using hcount⟩
    rw [hempty] at hmem
    exact absurd hmem (List.not_mem_nil _)

/-- C10 witness instantiation: two samples of A plus one of B leave both
signs under 3 samples, and both are listed. -/
theorem routeTrain_insufficient_rejects_witness :
    (routeTrain ratSqrt ratAcos "net" ⟨0, 0⟩ "t"
        (some ⟨[⟨"A", []⟩, ⟨"A", []⟩], none⟩) [⟨"B", []⟩]).1 =
      .insufficientSamples ["A", "B"] := by
  have h := routeTrain_insufficient_rejects ratSqrt ratAcos "net" ⟨0, 0⟩ "t"
    ⟨[⟨"A", []⟩, ⟨"A", []⟩], none⟩ [⟨"B", []⟩] (by decide) (by decide)
  rw [h.2.2.2 (by decide)]
  decide

theorem filter_replicate_false {α : Type} (p : α → Bool) (x : α) (hx : p x = false)
    (n : ℕ) : (List.replicate n x).filter p = [] := by
  induction n with
  | zero => rfl
  | succ k ih => simp [List.replicate_succ, List.filter_cons, hx, ih]

theorem sqMag_zero : sqMag ⟨.fin 0, .fin 0, .fin 0⟩ = .fin 0 := by
  simp [sqMag, jsMul_fin, jsAdd_fin]

theorem jsSqrt_zero (sq : ℚ → ℚ) : jsSqrt sq (.fin 0) = .fin 0 := by
  simp [jsSqrt]

theorem translated_replicate (p : Landmark) (n : ℕ) :
    translated (List.replicate (n + 1) p) = List.replicate (n + 1) (subLandmark p p) := by
  rw [List.replicate_succ]
  simp [translated, List.map_replicate, List.replicate_succ]

/-- C5: on the degenerate input in which all 21 landmarks are one identical
finite point, normalizeLandmarks returns 21 zero vectors (the translated
landmarks; the maximal positive distance is -Infinity, so no division is
attempted); in general, whenever maxDistance is zero or non-finite the
translated-but-unscaled landmarks are returned unchanged. -/
theorem normalizeLandmarks_degenerate (sq : ℚ → ℚ) (a b c : ℚ) :
    normalizeLandmarks sq (List.replicate 21 ⟨.fin a, .fin b, .fin c⟩)
      = List.replicate 21 ⟨.fin 0, .fin 0, .fin 0⟩
    ∧ ∀ lms : List Landmark,
        (maxDistanceOf sq lms = .fin 0 ∨ jsIsFinite (maxDistanceOf sq lms) = false) →
        normalizeLandmarks sq lms = translated lms := by
  constructor
  · have hsub : subLandmark ⟨.fin a, .fin b, .fin c⟩ ⟨.fin a, .fin b, .fin c⟩
        = ⟨.fin 0, .fin 0, .fin 0⟩ := by
      simp [subLandmark, jsSub_fin]
    have htrans : translated (List.replicate 21 (⟨.fin a, .fin b, .fin c⟩ : Landmark))
        = List.replicate 21 ⟨.fin 0, .fin 0, .fin 0⟩ := by
      rw [translated_replicate, hsub]
    have hdist : distancesOf sq (List.replicate 21 (⟨.fin a, .fin b, .fin c⟩ : Landmark))
        = List.replicate 21 (.fin 0) := by
      unfold distancesOf
      rw [htrans, List.map_replicate, sqMag_zero, jsSqrt_zero]
    have hmax : maxDistanceOf sq (List.replicate 21 (⟨.fin a, .fin b, .fin c⟩ : Landmark))
        = .ninf := by
      unfold maxDistanceOf
      rw [hdist, filter_replicate_false _ _ (by simp [jsGt, jsLt])]
      rfl
    unfold normalizeLandmarks
    rw [hmax, htrans]
    simp [jsIsFinite]
  · intro lms h
    unfold normalizeLandmarks
    rw [if_pos h]

/-- C5 witness instantiation: a concrete identical-point input and a concrete
degenerate (single NaN landmark) input. -/
theorem normalizeLandmarks_degenerate_witness :
    normalizeLandmarks ratSqrt (List.replicate 21 ⟨.fin 3, .fin 4, .fin 5⟩)
      = List.replicate 21 ⟨.fin 0, .fin 0, .fin 0⟩
    ∧ normalizeLandmarks ratSqrt [⟨.nan, .fin 0, .fin 0⟩]
      = translated [⟨.nan, .fin 0, .fin 0⟩] :=
  ⟨(normalizeLandmarks_degenerate ratSqrt 3 4 5).1,
    (normalizeLandmarks_degenerate ratSqrt 0 0 0).2 [⟨.nan, .fin 0, .fin 0⟩] (by decide)⟩

set_option maxRecDepth 400000 in
/-- C1: injecting a NaN into landmark 1 does not discard the sample.
extractFeatures filters the non-finite entries out individually (line 95 of
preprocessing.js) and returns a partially-filled 95-element vector, and
predictSign, whose non-finite guard can then never fire, runs the network on
it and returns a normal labelled prediction rather than INVALID.  The guards
at lines 13 and 185, written to reject non-finite features, are dead code
behind that filter. -/
theorem extractFeatures_nan_not_discarded :
    (extractFeatures ratSqrt ratAcos (normalizeLandmarks ratSqrt nanLandmarks)).length = 95
    ∧ (0 : ℕ) < 95 ∧ (95 : ℕ) < 102
    ∧ (predictSign ratSqrt ratAcos witnessModelA nanLandmarks defaultSettings).sign = "A" := by
  exact ⟨by decide, by decide, by decide, by decide⟩

theorem finiteLandmark_iff (p : Landmark) :
    finiteLandmark p ↔ ∃ a b c : ℚ, p = ⟨.fin a, .fin b, .fin c⟩ := by
  obtain ⟨x, y, z⟩ := p
  cases x <;> cases y <;> cases z <;> simp [finiteLandmark, jsIsFinite]

theorem subLandmark_finite (p w : Landmark) (hp : finiteLandmark p) (hw : finiteLandmark w) :
    finiteLandmark (subLandmark p w) := by
  rw [finiteLandmark_iff] at hp hw
  obtain ⟨a, b, c, rfl⟩ := hp
  obtain ⟨d, e, f, rfl⟩ := hw
  rw [finiteLandmark_iff]
  exact ⟨a - d, b - e, c - f, by simp [subLandmark, jsSub_fin]⟩

theorem translated_length (lms : List Landmark) : (translated lms).length = lms.length := by
  cases lms <;> simp [translated]

theorem translated_allFinite (lms : List Landmark) (h : ∀ p ∈ lms, finiteLandmark p) :
    ∀ p ∈ translated lms, finiteLandmark p := by
  cases lms with
  | nil => simp [translated]
  | cons w t =>
    intro p hp
    rw [translated, List.mem_map] at hp
    obtain ⟨q, hq, rfl⟩ := hp
    exact subLandmark_finite q w (h q hq) (h w (List.mem_cons_self w t))

theorem sqMag_fin_nonneg (p : Landmark) (hp : finiteLandmark p) :
    ∃ c : ℚ, sqMag p = .fin c ∧ 0 ≤ c := by
  rw [finiteLandmark_iff] at hp
  obtain ⟨a, b, c, rfl⟩ := hp
  refine ⟨a * a + b * b + c * c, by simp [sqMag, jsMul_fin, jsAdd_fin],
    by nlinarith [mul_self_nonneg a, mul_self_nonneg b, mul_self_nonneg c]⟩

theorem jsSqrt_fin_of_nonneg (sq : ℚ → ℚ) (c : ℚ) (hc : 0 ≤ c) :
    ∃ s : ℚ, jsSqrt sq (.fin c) = .fin s := by
  simp only [jsSqrt]
  split_ifs with h1 h2
  · linarith
  · exact ⟨0, rfl⟩
  · exact ⟨sq c, rfl⟩

theorem scaleLandmark_finite (m : ℚ) (hm : m ≠ 0) (p : Landmark) (hp : finiteLandmark p) :
    finiteLandmark (scaleLandmark (.fin m) p) := by
  rw [finiteLandmark_iff] at hp
  obtain ⟨a, b, c, rfl⟩ := hp
  rw [finiteLandmark_iff]
  exact ⟨a / m, b / m, c / m, by simp [scaleLandmark, jsDiv_fin _ _ hm]⟩

theorem normalizeLandmarks_cases (sq : ℚ → ℚ) (lms : List Landmark) :
    normalizeLandmarks sq lms = translated lms
    ∨ ∃ m : ℚ, m ≠ 0 ∧ maxDistanceOf sq lms = .fin m ∧
        normalizeLandmarks sq lms = (translated lms).map (scaleLandmark (.fin m)) := by
  unfold normalizeLandmarks
  by_cases h : maxDistanceOf sq lms = .fin 0 ∨ jsIsFinite (maxDistanceOf sq lms) = false
  · left
    rw [if_pos h]
  · right
    rw [if_neg h]
    push_neg at h
    obtain ⟨h1, h2⟩ := h
    cases hmd : maxDistanceOf sq lms with
    | fin m =>
      refine ⟨m, ?_, rfl, rfl⟩
      intro hm0
      exact h1 (by rw [hmd, hm0])
    | nan => exact absurd (by rw [hmd]; rfl) h2
    | inf => exact absurd (by rw [hmd]; rfl) h2
    | ninf => exact absurd (by rw [hmd]; rfl) h2

theorem normalizeLandmarks_length (sq : ℚ → ℚ) (lms : List Landmark) :
    (normalizeLandmarks sq lms).length = lms.length := by
  rcases normalizeLandmarks_cases sq lms with h | ⟨m, _, _, h⟩
  · rw [h, translated_length]
  · rw [h, List.length_map, translated_length]

theorem normalizeLandmarks_allFinite (sq : ℚ → ℚ) (lms : List Landmark)
    (h : ∀ p ∈ lms, finiteLandmark p) :
    ∀ p ∈ normalizeLandmarks sq lms, finiteLandmark p := by
  rcases normalizeLandmarks_cases sq lms with hc | ⟨m, hm, _, hc⟩
  · rw [hc]
    exact translated_allFinite lms h
  · rw [hc]
    intro p hp
    rw [List.mem_map] at hp
    obtain ⟨q, hq, rfl⟩ := hp
    exact scaleLandmark_finite m hm q (translated_allFinite lms h q hq)

theorem getD_mem_of_lt {α : Type} (l : List α) (i : ℕ) (d : α) (h : i < l.length) :
    l.getD i d ∈ l := by
  rw [List.getD_eq_getElem l d h]
  exact List.getElem_mem h

theorem jsMin2_fin (a b : ℚ) : jsMin2 (.fin a) (.fin b) = .fin (if b < a then b else a) := by
  simp only [jsMin2, jsLt, decide_eq_true_eq]
  split_ifs with h <;> rfl

theorem jsMax2_fin (a b : ℚ) : jsMax2 (.fin a) (.fin b) = .fin (if a < b then b else a) := by
  simp only [jsMax2, jsLt, decide_eq_true_eq]
  split_ifs with h <;> rfl

theorem euclideanDistance3_fin (sq : ℚ → ℚ) (a1 a2 a3 b1 b2 b3 : ℚ) :
    ∃ c : ℚ, euclideanDistance sq [.fin a1, .fin a2, .fin a3] [.fin b1, .fin b2, .fin b3]
      = .fin c := by
  unfold euclideanDistance
  rw [if_neg (by simp)]
  have hz : List.zip [JSNum.fin a1, .fin a2, .fin a3] [JSNum.fin b1, .fin b2, .fin b3]
      = [(JSNum.fin a1, JSNum.fin b1), (.fin a2, .fin b2), (.fin a3, .fin b3)] := rfl
  rw [hz]
  simp only [List.foldl_cons, List.foldl_nil, jsPow2, jsSub_fin, jsMul_fin, jsAdd_fin]
  refine jsSqrt_fin_of_nonneg sq _ ?_
  nlinarith [mul_self_nonneg (a1 - b1), mul_self_nonneg (a2 - b2),
    mul_self_nonneg (a3 - b3)]

theorem calculateAngle_fin (sq ac : ℚ → ℚ) (p1 p2 p3 : Landmark)
    (h1 : finiteLandmark p1) (h2 : finiteLandmark p2) (h3 : finiteLandmark p3) :
    ∃ c : ℚ, calculateAngle sq ac p1 p2 p3 = .fin c := by
  rw [finiteLandmark_iff] at h1 h2 h3
  obtain ⟨a1, b1, c1, rfl⟩ := h1
  obtain ⟨a2, b2, c2, rfl⟩ := h2
  obtain ⟨a3, b3, c3, rfl⟩ := h3
  unfold calculateAngle
  simp only [subLandmark, jsSub_fin, sqMag, jsMul_fin, jsAdd_fin]
  obtain ⟨m1, hm1⟩ := jsSqrt_fin_of_nonneg sq
    ((a1 - a2) * (a1 - a2) + (b1 - b2) * (b1 - b2) + (c1 - c2) * (c1 - c2))
    (by nlinarith [mul_self_nonneg (a1 - a2), mul_self_nonneg (b1 - b2),
      mul_self_nonneg (c1 - c2)])
  obtain ⟨m2, hm2⟩ := jsSqrt_fin_of_nonneg sq
    ((a3 - a2) * (a3 - a2) + (b3 - b2) * (b3 - b2) + (c3 - c2) * (c3 - c2))
    (by nlinarith [mul_self_nonneg (a3 - a2), mul_self_nonneg (b3 - b2),
      mul_self_nonneg (c3 - c2)])
  rw [hm1, hm2]
  by_cases hz : JSNum.fin m1 = .fin 0 ∨ JSNum.fin m2 = .fin 0
  · rw [if_pos hz]
    exact ⟨0, rfl⟩
  · rw [if_neg hz]
    push_neg at hz
    have hm1z : m1 ≠ 0 := fun h => hz.1 (by rw [h])
    have hm2z : m2 ≠ 0 := fun h => hz.2 (by rw [h])
    rw [jsMul_fin, jsDiv_fin _ _ (mul_ne_zero hm1z hm2z), jsMin2_fin, jsMax2_fin,
      mkRat_negOne]
    set x := ((a1 - a2) * (a3 - a2) + (b1 - b2) * (b3 - b2) + (c1 - c2) * (c3 - c2))
      / (m1 * m2) with hx
    set m := if x < 1 then x else 1 with hmdef
    have hmle : m ≤ 1 := by
      rw [hmdef]
      split_ifs with h
      · linarith
      · linarith
    set cc := if (-1 : ℚ) < m then m else -1 with hccdef
    have hcc1 : (-1 : ℚ) ≤ cc := by
      rw [hccdef]
      split_ifs with h
      · linarith
      · linarith
    have hcc2 : cc ≤ 1 := by
      rw [hccdef]
      split_ifs with h
      · exact hmle
      · linarith
    simp only [jsAcos, mkRat_negOne]
    have hcond : ¬(cc < -1 ∨ 1 < cc) := by
      rintro (h | h) <;> linarith
    rw [if_neg hcond]
    exact ⟨ac cc, rfl⟩

theorem euclideanDistance_landmark_fin (sq : ℚ → ℚ) (p q : Landmark)
    (hp : finiteLandmark p) (hq : finiteLandmark q) :
    ∃ c : ℚ, euclideanDistance sq [p.x, p.y, p.z] [q.x, q.y, q.z] = .fin c := by
  rw [finiteLandmark_iff] at hp hq
  obtain ⟨a1, b1, c1, rfl⟩ := hp
  obtain ⟨a2, b2, c2, rfl⟩ := hq
  exact euclideanDistance3_fin sq a1 b1 c1 a2 b2 c2

theorem coordsOf_length (l : List Landmark) : (coordsOf l).length = 3 * l.length := by
  induction l with
  | nil => rfl
  | cons p t ih =>
    unfold coordsOf at ih ⊢
    rw [List.flatMap_cons, List.length_append, ih, List.length_cons]
    simp only [List.length_cons, List.length_nil]
    omega

theorem coordsOf_allFinite (l : List Landmark) (h : ∀ p ∈ l, finiteLandmark p) :
    ∀ f ∈ coordsOf l, jsIsFinite f = true := by
  intro f hf
  unfold coordsOf at hf
  rw [List.mem_flatMap] at hf
  obtain ⟨p, hp, hfp⟩ := hf
  obtain ⟨hx, hy, hz⟩ := h p hp
  simp only [List.mem_cons, List.mem_singleton, List.not_mem_nil, or_false] at hfp
  rcases hfp with rfl | rfl | rfl <;> assumption

theorem fingerDistsOf_length (sq : ℚ → ℚ) (l : List Landmark) :
    (fingerDistsOf sq l).length = 5 := by
  simp [fingerDistsOf, fingerTips]

theorem fingerTips_lt : ∀ i < 5, fingerTips.getD i 0 < 21 ∧ fingerBases.getD i 0 < 21 := by
  decide

theorem palmPoints_lt : ∀ i < 6, palmPoints.getD i 0 < 21 := by
  decide

theorem fingerDistsOf_allFinite (sq : ℚ → ℚ) (l : List Landmark) (hlen : l.length = 21)
    (h : ∀ p ∈ l, finiteLandmark p) :
    ∀ f ∈ fingerDistsOf sq l, jsIsFinite f = true := by
  intro f hf
  unfold fingerDistsOf at hf
  rw [List.mem_map] at hf
  obtain ⟨i, hi, rfl⟩ := hf
  rw [List.mem_range] at hi
  have hi5 : i < 5 := by simpa [fingerTips] using hi
  have htip : finiteLandmark (l.getD (fingerTips.getD i 0) defaultLandmark) :=
    h _ (getD_mem_of_lt l _ defaultLandmark (by rw [hlen]; exact (fingerTips_lt i hi5).1))
  have hbase : finiteLandmark (l.getD (fingerBases.getD i 0) defaultLandmark) :=
    h _ (getD_mem_of_lt l _ defaultLandmark (by rw [hlen]; exact (fingerTips_lt i hi5).2))
  obtain ⟨c, hc⟩ := euclideanDistance_landmark_fin sq _ _ htip hbase
  rw [hc]
  rfl

theorem palmDistsOf_length (sq : ℚ → ℚ) (l : List Landmark) :
    (palmDistsOf sq l).length = 15 := by
  simp only [palmDistsOf, List.length_flatMap, List.map_map, Function.comp_def,
    List.length_map]
  decide

theorem palmDistsOf_allFinite (sq : ℚ → ℚ) (l : List Landmark) (hlen : l.length = 21)
    (h : ∀ p ∈ l, finiteLandmark p) :
    ∀ f ∈ palmDistsOf sq l, jsIsFinite f = true := by
  intro f hf
  unfold palmDistsOf at hf
  rw [List.mem_flatMap] at hf
  obtain ⟨i, hi, hf⟩ := hf
  rw [List.mem_map] at hf
  obtain ⟨j, hj, rfl⟩ := hf
  rw [List.mem_filter, List.mem_range] at hj
  rw [List.mem_range] at hi
  have hi6 : i < 6 := by simpa [palmPoints] using hi
  have hj6 : j < 6 := by simpa [palmPoints] using hj.1
  have hp1 : finiteLandmark (l.getD (palmPoints.getD i 0) defaultLandmark) :=
    h _ (getD_mem_of_lt l _ defaultLandmark (by rw [hlen]; exact palmPoints_lt i hi6))
  have hp2 : finiteLandmark (l.getD (palmPoints.getD j 0) defaultLandmark) :=
    h _ (getD_mem_of_lt l _ defaultLandmark (by rw [hlen]; exact palmPoints_lt j hj6))
  obtain ⟨c, hc⟩ := euclideanDistance_landmark_fin sq _ _ hp1 hp2
  rw [hc]
  rfl

theorem anglesOf_length (sq ac : ℚ → ℚ) (l : List Landmark) (hlen : l.length = 21) :
    (anglesOf sq ac l).length = 19 := by
  unfold anglesOf
  rw [hlen, List.length_map]
  decide

theorem anglesOf_allFinite (sq ac : ℚ → ℚ) (l : List Landmark)
    (h : ∀ p ∈ l, finiteLandmark p) :
    ∀ f ∈ anglesOf sq ac l, jsIsFinite f = true := by
  intro f hf
  unfold anglesOf at hf
  rw [List.mem_map] at hf
  obtain ⟨i, hi, rfl⟩ := hf
  rw [List.mem_filter, List.mem_range] at hi
  obtain ⟨hilen, hcond⟩ := hi
  have hcond2 : 0 < i ∧ i + 1 < l.length := by simpa using hcond
  have h1 := h _ (getD_mem_of_lt l (i - 1) defaultLandmark (by omega))
  have h2 := h _ (getD_mem_of_lt l i defaultLandmark (by omega))
  have h3 := h _ (getD_mem_of_lt l (i + 1) defaultLandmark (by omega))
  obtain ⟨c, hc⟩ := calculateAngle_fin sq ac _ _ _ h1 h2 h3
  rw [hc]
  rfl

theorem finitePred_of_finite (f : JSNum) (h : jsIsFinite f = true) :
    (!(jsIsNaN f) && jsIsFinite f) = true := by
  cases f <;> simp_all [jsIsNaN, jsIsFinite]

/-- C2: for a valid sample (21 landmarks, all coordinates finite) the feature
vector of extractFeatures after normalizeLandmarks is exactly the
concatenation, in order, of the 63 raw coordinates, the 5 fingertip-to-base
distances, the 15 palm pairwise distances and the 19 joint-triplet angles
(the finiteness filter drops nothing), so its length is 102 for every input
geometry. -/
theorem extractFeatures_valid_length_102 (sq ac : ℚ → ℚ) (lms : List Landmark)
    (h21 : lms.length = 21) (hfin : ∀ p ∈ lms, finiteLandmark p) :
    extractFeatures sq ac (normalizeLandmarks sq lms)
      = coordsOf (normalizeLandmarks sq lms)
        ++ fingerDistsOf sq (normalizeLandmarks sq lms)
        ++ palmDistsOf sq (normalizeLandmarks sq lms)
        ++ anglesOf sq ac (normalizeLandmarks sq lms)
    ∧ (coordsOf (normalizeLandmarks sq lms)).length = 63
    ∧ (fingerDistsOf sq (normalizeLandmarks sq lms)).length = 5
    ∧ (palmDistsOf sq (normalizeLandmarks sq lms)).length = 15
    ∧ (anglesOf sq ac (normalizeLandmarks sq lms)).length = 19
    ∧ (extractFeatures sq ac (normalizeLandmarks sq lms)).length = 102 := by
  have hnlen : (normalizeLandmarks sq lms).length = 21 := by
    rw [normalizeLandmarks_length, h21]
  have hnfin := normalizeLandmarks_allFinite sq lms hfin
  have heq : extractFeatures sq ac (normalizeLandmarks sq lms)
      = coordsOf (normalizeLandmarks sq lms)
        ++ fingerDistsOf sq (normalizeLandmarks sq lms)
        ++ palmDistsOf sq (normalizeLandmarks sq lms)
        ++ anglesOf sq ac (normalizeLandmarks sq lms) := by
    unfold extractFeatures
    rw [List.filter_eq_self]
    intro f hf
    simp only [List.mem_append] at hf
    rcases hf with ((hf | hf) | hf) | hf
    · exact finitePred_of_finite f (coordsOf_allFinite _ hnfin f hf)
    · exact finitePred_of_finite f (fingerDistsOf_allFinite sq _ hnlen hnfin f hf)
    · exact finitePred_of_finite f (palmDistsOf_allFinite sq _ hnlen hnfin f hf)
    · exact finitePred_of_finite f (anglesOf_allFinite sq ac _ hnfin f hf)
  have hc : (coordsOf (normalizeLandmarks sq lms)).length = 63 := by
    rw [coordsOf_length, hnlen]
  have hfd := fingerDistsOf_length sq (normalizeLandmarks sq lms)
  have hpd := palmDistsOf_length sq (normalizeLandmarks sq lms)
  have han := anglesOf_length sq ac (normalizeLandmarks sq lms) hnlen
  refine ⟨heq, hc, hfd, hpd, han, ?_⟩
  rw [heq]
  simp only [List.length_append]
  omega

/-- C2 witness instantiation. -/
theorem extractFeatures_valid_length_102_witness :
    (extractFeatures ratSqrt ratAcos (normalizeLandmarks ratSqrt unitLandmarks)).length
      = 102 :=
  (extractFeatures_valid_length_102 ratSqrt ratAcos unitLandmarks (by decide)
    (by decide)).2.2.2.2.2

theorem extractFeatures_any_nonfinite_false (sq ac : ℚ → ℚ) (l : List Landmark) :
    (extractFeatures sq ac l).any (fun f => jsIsNaN f || !(jsIsFinite f)) = false := by
  rw [List.any_eq_false]
  intro f hf
  have hp : (!(jsIsNaN f) && jsIsFinite f) = true := by
    unfold extractFeatures at hf
    exact (List.mem_filter.mp hf).2
  cases f <;> simp_all [jsIsNaN, jsIsFinite]

theorem predictSign_guard_false (sq ac : ℚ → ℚ) (lms : List Landmark)
    (h3 : extractFeatures sq ac (normalizeLandmarks sq lms) ≠ []) :
    ¬((extractFeatures sq ac (normalizeLandmarks sq lms)).length = 0
      ∨ (extractFeatures sq ac (normalizeLandmarks sq lms)).any
          (fun f => jsIsNaN f || !(jsIsFinite f)) = true) := by
  rintro (hl | ha)
  · exact h3 (List.length_eq_zero.mp hl)
  · rw [extractFeatures_any_nonfinite_false] at ha
    cases ha

theorem foldl_maxPrediction_fst (pred : List (String × JSNum)) (acc : JSNum × String)
    (h : (∃ q : ℚ, acc.1 = .fin q) ∨ acc.1 = .inf) :
    (∃ q : ℚ,
      (pred.foldl (fun acc p => if jsGt p.2 acc.1 then (p.2, p.1) else acc) acc).1 = .fin q)
    ∨ (pred.foldl (fun acc p => if jsGt p.2 acc.1 then (p.2, p.1) else acc) acc).1 = .inf := by
  induction pred generalizing acc with
  | nil => exact h
  | cons p t ih =>
    rw [List.foldl_cons]
    apply ih
    by_cases hc : jsGt p.2 acc.1 = true
    · rw [if_pos hc]
      cases hp : p.2 with
      | fin q => exact Or.inl ⟨q, rfl⟩
      | nan =>
        rw [hp] at hc
        cases a1 : acc.1 <;> rw [a1] at hc <;> simp [jsGt, jsLt] at hc
      | inf => exact Or.inr rfl
      | ninf =>
        rw [hp] at hc
        cases a1 : acc.1 <;> rw [a1] at hc <;> simp [jsGt, jsLt] at hc
    · rw [if_neg hc]
      exact h

theorem maxPrediction_fst_fin_or_inf (pred : List (String × JSNum)) :
    (∃ q : ℚ, (maxPrediction pred).1 = .fin q) ∨ (maxPrediction pred).1 = .inf :=
  foldl_maxPrediction_fst pred (.fin 0, "UNKNOWN") (Or.inl ⟨0, rfl⟩)

theorem half_fin_or_inf (c : JSNum) (h : (∃ q : ℚ, c = .fin q) ∨ c = .inf) :
    (∃ q : ℚ, jsMul c (.fin (mkRat 1 2)) = .fin q) ∨ jsMul c (.fin (mkRat 1 2)) = .inf := by
  rcases h with ⟨q, rfl⟩ | rfl
  · exact Or.inl ⟨q * mkRat 1 2, jsMul_fin q (mkRat 1 2)⟩
  · right
    have : (0 : ℚ) < mkRat 1 2 := by
      rw [mkRat_half]
      norm_num
    simp [jsMul, this]

theorem clampConfidence_range (c : JSNum) (h : (∃ q : ℚ, c = .fin q) ∨ c = .inf) :
    ∃ r : ℚ, clampConfidence c = .fin r ∧ 1 / 100 ≤ r ∧ r ≤ 99 / 100 := by
  unfold clampConfidence
  rcases h with ⟨q, rfl⟩ | rfl
  · rw [jsMax2_fin, jsMin2_fin, mkRat_ninetyNine, mkRat_oneHundredth]
    split_ifs with h1 h2 h3
    · exact ⟨q, rfl, by linarith, by linarith⟩
    · exact ⟨99 / 100, rfl, by norm_num, by norm_num⟩
    · exact ⟨1 / 100, rfl, by norm_num, by norm_num⟩
    · exact ⟨99 / 100, rfl, by norm_num, by norm_num⟩
  · refine ⟨99 / 100, ?_, by norm_num, by norm_num⟩
    simp [jsMax2, jsMin2, jsLt, mkRat_ninetyNine]

/-- C3 counterexample: predictSign on a model with no classifier returns the
UNKNOWN sentinel with confidence exactly 0, which lies outside [0.01, 0.99];
the same happens on the INVALID and ERROR guard paths. -/
theorem predictSign_confidence_zero_counterexample :
    (predictSign ratSqrt ratAcos ⟨none⟩ unitLandmarks defaultSettings).confidence = .fin 0
    ∧ ¬confidenceInRange (predictSign ratSqrt ratAcos ⟨none⟩ unitLandmarks defaultSettings) := by
  constructor
  · rfl
  · rintro ⟨c, hc, hc1, hc2⟩
    have h0 : JSNum.fin 0 = JSNum.fin c := hc
    cases h0
    norm_num at hc1

/-- C3 amended: on the success path (classifier with a network present and a
non-empty extracted feature vector) the confidence returned by predictSign is
a finite value in [0.01, 0.99], for every network output and every setting;
the guard paths (no classifier, invalid/empty features, internal error)
return the sentinel confidence 0 instead. -/
theorem predictSign_confidence_clamped (sq ac : ℚ → ℚ) (model : PredictModel)
    (cls : NetworkClassifier) (net : List JSNum → List (String × JSNum))
    (lms : List Landmark) (settings : DetectionSettings)
    (h1 : model.classifier = some cls) (h2 : cls.network = some net)
    (h3 : extractFeatures sq ac (normalizeLandmarks sq lms) ≠ []) :
    confidenceInRange (predictSign sq ac model lms settings) := by
  unfold predictSign
  rw [h1]
  dsimp only
  rw [h2]
  dsimp only
  rw [if_neg (predictSign_guard_false sq ac lms h3)]
  by_cases hc : jsLt (maxPrediction (net (extractFeatures sq ac (normalizeLandmarks sq lms)))).1
      (jsMul (effectiveThreshold settings) (.fin (mkRat 1 2))) = true
  · rw [if_pos hc]
    obtain ⟨r, hr, hr1, hr2⟩ := clampConfidence_range _
      (half_fin_or_inf _ (maxPrediction_fst_fin_or_inf _))
    exact ⟨r, hr, hr1, hr2⟩
  · rw [if_neg hc]
    obtain ⟨r, hr, hr1, hr2⟩ := clampConfidence_range _ (maxPrediction_fst_fin_or_inf _)
    exact ⟨r, hr, hr1, hr2⟩

set_option maxRecDepth 100000 in
/-- C3 witness instantiation. -/
theorem predictSign_confidence_clamped_witness :
    confidenceInRange (predictSign ratSqrt ratAcos witnessModelA unitLandmarks
      defaultSettings) :=
  predictSign_confidence_clamped ratSqrt ratAcos witnessModelA
    ⟨some (fun _ => [("A", .fin (mkRat 4 5))])⟩ (fun _ => [("A", .fin (mkRat 4 5))])
    unitLandmarks defaultSettings rfl rfl (by decide)

/-- C7: whenever the maximal raw per-label score is strictly below half of
the effective confidence threshold (the configured value, 0.7 when unset, 0
and NaN being falsy), predictSign overrides the label to the UNCERTAIN
sentinel and reports the raw confidence halved and then clamped, together
with the per-label scores; a labelled prediction is returned, not a
rejection. -/
theorem predictSign_uncertain_override (sq ac : ℚ → ℚ) (model : PredictModel)
    (cls : NetworkClassifier) (net : List JSNum → List (String × JSNum))
    (lms : List Landmark) (settings : DetectionSettings) (thr : JSNum)
    (h1 : model.classifier = some cls) (h2 : cls.network = some net)
    (h3 : extractFeatures sq ac (normalizeLandmarks sq lms) ≠ [])
    (hthr : settings.confidenceThreshold = none ∧ thr = .fin (mkRat 7 10)
      ∨ settings.confidenceThreshold = some thr ∧ thr ≠ .fin 0 ∧ thr ≠ .nan)
    (hlow : jsLt (maxPrediction (net (extractFeatures sq ac (normalizeLandmarks sq lms)))).1
      (jsMul thr (.fin (mkRat 1 2))) = true) :
    predictSign sq ac model lms settings =
      ⟨"UNCERTAIN",
        clampConfidence (jsMul
          (maxPrediction (net (extractFeatures sq ac (normalizeLandmarks sq lms)))).1
          (.fin (mkRat 1 2))),
        some (net (extractFeatures sq ac (normalizeLandmarks sq lms)))⟩ := by
  have hthr2 : effectiveThreshold settings = thr := by
    rcases hthr with ⟨hs, rfl⟩ | ⟨hs, hz, hn⟩
    · unfold effectiveThreshold
      rw [hs]
    · unfold effectiveThreshold
      rw [hs]
      dsimp only
      rw [if_neg]
      rintro (h | h)
      · exact hz h
      · exact hn h
  unfold predictSign
  rw [h1]
  dsimp only
  rw [h2]
  dsimp only
  rw [if_neg (predictSign_guard_false sq ac lms h3), hthr2, if_pos hlow]

set_option maxRecDepth 100000 in
/-- C7 witness instantiation: a network scoring label A at 0.1 with the
default threshold 0.7 is overridden to UNCERTAIN with confidence
clamp(0.05). -/
theorem predictSign_uncertain_override_witness :
    predictSign ratSqrt ratAcos witnessModelLow unitLandmarks defaultSettings =
      ⟨"UNCERTAIN",
        clampConfidence (jsMul (maxPrediction [("A", JSNum.fin (mkRat 1 10))]).1
          (.fin (mkRat 1 2))),
        some [("A", JSNum.fin (mkRat 1 10))]⟩ :=
  predictSign_uncertain_override ratSqrt ratAcos witnessModelLow
    ⟨some (fun _ => [("A", .fin (mkRat 1 10))])⟩ (fun _ => [("A", .fin (mkRat 1 10))])
    unitLandmarks defaultSettings (.fin (mkRat 7 10)) rfl rfl (by decide)
    (Or.inl ⟨rfl, rfl⟩) (by decide)

theorem foldl_jsMax2_fin (l : List JSNum) (hl : ∀ x ∈ l, ∃ q : ℚ, x = .fin q) (a : ℚ) :
    ∃ m : ℚ, List.foldl jsMax2 (.fin a) l = .fin m ∧ (m = a ∨ .fin m ∈ l) ∧ a ≤ m
      ∧ ∀ q : ℚ, .fin q ∈ l → q ≤ m := by
  induction l generalizing a with
  | nil =>
    exact ⟨a, rfl, Or.inl rfl, le_refl a, fun q hq => absurd hq (List.not_mem_nil _)⟩
  | cons x t ih =>
    obtain ⟨qx, rfl⟩ := hl x (List.mem_cons_self x t)
    rw [List.foldl_cons, jsMax2_fin]
    obtain ⟨m, hm, hmem, hle, hbound⟩ :=
      ih (fun y hy => hl y (List.mem_cons_of_mem _ hy)) (if a < qx then qx else a)
    have hqxle : qx ≤ m := by
      split_ifs at hle with h
      · exact hle
      · exact le_trans (le_of_not_lt h) hle
    have hale : a ≤ m := by
      split_ifs at hle with h
      · exact le_trans (le_of_lt h) hle
      · exact hle
    refine ⟨m, hm, ?_, hale, ?_⟩
    · rcases hmem with hmeq | hmem
      · split_ifs at hmeq with h
        · exact Or.inr (by rw [hmeq]; exact List.mem_cons_self _ _)
        · exact Or.inl hmeq
      · exact Or.inr (List.mem_cons_of_mem _ hmem)
    · intro q hq
      rcases List.mem_cons.mp hq with heq | hmemt
      · injection heq with h
        exact h ▸ hqxle
      · exact hbound q hmemt

theorem jsMaxList_fin (l : List JSNum) (hl : ∀ x ∈ l, ∃ q : ℚ, x = .fin q) (hne : l ≠ []) :
    ∃ m : ℚ, jsMaxList l = .fin m ∧ .fin m ∈ l ∧ ∀ q : ℚ, .fin q ∈ l → q ≤ m := by
  cases l with
  | nil => exact absurd rfl hne
  | cons x t =>
    obtain ⟨qx, rfl⟩ := hl x (List.mem_cons_self x t)
    unfold jsMaxList
    rw [List.foldl_cons]
    have h0 : jsMax2 .ninf (.fin qx) = .fin qx := by simp [jsMax2, jsLt]
    rw [h0]
    obtain ⟨m, hm, hmem, hle, hbound⟩ :=
      foldl_jsMax2_fin t (fun y hy => hl y (List.mem_cons_of_mem _ hy)) qx
    refine ⟨m, hm, ?_, ?_⟩
    · rcases hmem with rfl | hmem
      · exact List.mem_cons_self _ _
      · exact List.mem_cons_of_mem _ hmem
    · intro q hq
      rcases List.mem_cons.mp hq with heq | hmemt
      · injection heq with h
        exact h ▸ hle
      · exact hbound q hmemt

theorem sqMag_fins (x y z : ℚ) :
    sqMag ⟨.fin x, .fin y, .fin z⟩ = .fin (x * x + y * y + z * z) := by
  simp [sqMag, jsMul_fin, jsAdd_fin]

theorem jsSqrt_fin_eq (sq : ℚ → ℚ) (c : ℚ) (hc : 0 ≤ c) :
    jsSqrt sq (.fin c) = .fin (if c = 0 then 0 else sq c) := by
  simp only [jsSqrt]
  rw [if_neg (not_lt.mpr hc)]
  split_ifs <;> rfl

theorem sqMag_scale (m x y z : ℚ) (hm : m ≠ 0) :
    sqMag (scaleLandmark (.fin m) ⟨.fin x, .fin y, .fin z⟩)
      = .fin ((x * x + y * y + z * z) / m ^ 2) := by
  have key : x / m * (x / m) + y / m * (y / m) + z / m * (z / m)
      = (x * x + y * y + z * z) / m ^ 2 := by
    rw [div_mul_div_comm, div_mul_div_comm, div_mul_div_comm, div_add_div_same,
      div_add_div_same, pow_two]
  simp only [scaleLandmark, jsDiv_fin _ _ hm, sqMag, jsMul_fin, jsAdd_fin]
  rw [key]

theorem distances_spec (sq : ℚ → ℚ) (lms : List Landmark)
    (hfin : ∀ p ∈ lms, finiteLandmark p)
    (hsq : ∀ q : ℚ, .fin q ∈ (translated lms).map sqMag → 0 ≤ sq q ∧ sq q ^ 2 = q) :
    ∀ p ∈ translated lms, ∃ Dp sp : ℚ, sqMag p = .fin Dp ∧ 0 ≤ Dp ∧
      jsSqrt sq (sqMag p) = .fin sp ∧ 0 ≤ sp ∧ sp ^ 2 = Dp := by
  intro p hp
  obtain ⟨Dp, hD, hD0⟩ := sqMag_fin_nonneg p (translated_allFinite lms hfin p hp)
  by_cases hz : Dp = 0
  · subst hz
    exact ⟨0, 0, hD, le_refl 0, by rw [hD, jsSqrt_zero], le_refl 0, by ring⟩
  · have hmem : JSNum.fin Dp ∈ (translated lms).map sqMag :=
      List.mem_map.mpr ⟨p, hp, hD⟩
    obtain ⟨hsq0, hsq2⟩ := hsq Dp hmem
    refine ⟨Dp, sq Dp, hD, hD0, ?_, hsq0, hsq2⟩
    rw [hD, jsSqrt_fin_eq sq Dp hD0, if_neg hz]

/-- C9: for every nonempty all-finite input, the wrist (landmark 0) of the
output of normalizeLandmarks is exactly the origin; and for every
non-degenerate input, assuming the abstract square root is exact on the
squared distances that occur, the squared Euclidean norms of the 21 output
landmarks are all at most 1 and the maximum is attained: some output landmark
has squared norm exactly 1 (so the maximum Euclidean norm is exactly 1). -/
theorem normalizeLandmarks_wrist_origin_unit_norm (sq : ℚ → ℚ) (lms : List Landmark)
    (hne : lms ≠ []) (hfin : ∀ p ∈ lms, finiteLandmark p) :
    (normalizeLandmarks sq lms).head? = some ⟨.fin 0, .fin 0, .fin 0⟩
    ∧ (¬(maxDistanceOf sq lms = .fin 0 ∨ jsIsFinite (maxDistanceOf sq lms) = false) →
       (∀ q : ℚ, .fin q ∈ (translated lms).map sqMag → 0 ≤ sq q ∧ sq q ^ 2 = q) →
       (∀ p ∈ normalizeLandmarks sq lms, ∃ c : ℚ, sqMag p = .fin c ∧ c ≤ 1)
       ∧ ∃ p ∈ normalizeLandmarks sq lms, sqMag p = .fin 1) := by
  obtain ⟨w, rest, rfl⟩ : ∃ w rest, lms = w :: rest := by
    cases lms with
    | nil => exact absurd rfl hne
    | cons w r => exact ⟨w, r, rfl⟩
  have hw := hfin w (List.mem_cons_self w rest)
  rw [finiteLandmark_iff] at hw
  obtain ⟨a, b, c, hweq⟩ := hw
  have hhead : (translated (w :: rest)).head? = some ⟨.fin 0, .fin 0, .fin 0⟩ := by
    unfold translated
    simp only [List.map_cons, List.head?_cons, Option.some.injEq]
    rw [hweq]
    simp [subLandmark, jsSub_fin]
  constructor
  · rcases normalizeLandmarks_cases sq (w :: rest) with hcase | ⟨m, hm, _, hcase⟩
    · rw [hcase, hhead]
    · rw [hcase]
      cases htl : translated (w :: rest) with
      | nil => rw [htl] at hhead; simp at hhead
      | cons t0 ts =>
        rw [htl] at hhead
        simp only [List.head?_cons, Option.some.injEq] at hhead
        simp only [List.map_cons, List.head?_cons, Option.some.injEq]
        rw [hhead]
        simp [scaleLandmark, jsDiv_fin _ _ hm, zero_div]
  · intro hnd hsq
    obtain ⟨m, hmd, hm0⟩ :
        ∃ m : ℚ, maxDistanceOf sq (w :: rest) = .fin m ∧ m ≠ 0 := by
      push_neg at hnd
      obtain ⟨h1, h2⟩ := hnd
      cases hx : maxDistanceOf sq (w :: rest) with
      | fin m => exact ⟨m, rfl, fun h => h1 (by rw [hx, h])⟩
      | nan => exact absurd (by rw [hx]; rfl) h2
      | inf => exact absurd (by rw [hx]; rfl) h2
      | ninf => exact absurd (by rw [hx]; rfl) h2
    have hnorm : normalizeLandmarks sq (w :: rest)
        = (translated (w :: rest)).map (scaleLandmark (.fin m)) := by
      unfold normalizeLandmarks
      rw [if_neg hnd, hmd]
    have hdist := distances_spec sq (w :: rest) hfin hsq
    have hdlfin : ∀ x ∈ (distancesOf sq (w :: rest)).filter (fun d => jsGt d (.fin 0)),
        ∃ q : ℚ, x = .fin q := by
      intro x hx
      rw [List.mem_filter] at hx
      have hx1 := hx.1
      unfold distancesOf at hx1
      rw [List.mem_map] at hx1
      obtain ⟨p, hp, rfl⟩ := hx1
      obtain ⟨Dp, sp, _, _, hs, _, _⟩ := hdist p hp
      exact ⟨sp, hs⟩
    have hdlne : (distancesOf sq (w :: rest)).filter (fun d => jsGt d (.fin 0)) ≠ [] := by
      intro hempty
      have hninf : maxDistanceOf sq (w :: rest) = .ninf := by
        unfold maxDistanceOf
        rw [hempty]
        rfl
      rw [hmd] at hninf
      cases hninf
    obtain ⟨mm, hmm, hmmmem, hmmbound⟩ := jsMaxList_fin _ hdlfin hdlne
    have hmdm : m = mm := by
      have hmd2 : maxDistanceOf sq (w :: rest) = .fin mm := hmm
      rw [hmd] at hmd2
      injection hmd2
    subst hmdm
    have hmpos : 0 < m := by
      rw [List.mem_filter] at hmmmem
      simpa [jsGt, jsLt] using hmmmem.2
    have hsple : ∀ p ∈ translated (w :: rest), ∀ sp : ℚ,
        jsSqrt sq (sqMag p) = .fin sp → 0 ≤ sp → sp ≤ m := by
      intro p hp sp hs hsp0
      by_cases hz : 0 < sp
      · apply hmmbound
        rw [List.mem_filter]
        refine ⟨?_, by simpa [jsGt, jsLt] using hz⟩
        unfold distancesOf
        exact List.mem_map.mpr ⟨p, hp, hs⟩
      · linarith [le_of_not_lt hz]
    constructor
    · intro p' hp'
      rw [hnorm, List.mem_map] at hp'
      obtain ⟨p, hp, rfl⟩ := hp'
      obtain ⟨Dp, sp, hD, hD0, hs, hsp0, hsp2⟩ := hdist p hp
      have hle : Dp ≤ m ^ 2 := by
        rw [← hsp2]
        have := hsple p hp sp hs hsp0
        nlinarith
      have hpf := translated_allFinite _ hfin p hp
      rw [finiteLandmark_iff] at hpf
      obtain ⟨x, y, z, rfl⟩ := hpf
      rw [sqMag_fins] at hD
      injection hD with hDeq
      refine ⟨(x * x + y * y + z * z) / m ^ 2,
        sqMag_scale m x y z (ne_of_gt hmpos), ?_⟩
      rw [div_le_one (by positivity)]
      rw [hDeq]
      exact hle
    · rw [List.mem_filter] at hmmmem
      have hmem2 := hmmmem.1
      unfold distancesOf at hmem2
      rw [List.mem_map] at hmem2
      obtain ⟨p0, hp0, hps⟩ := hmem2
      obtain ⟨D0, s0, hD0', hD00, hs0, hs00, hs02⟩ := hdist p0 hp0
      have hs0m : s0 = m := by
        rw [hps] at hs0
        injection hs0 with h
        exact h.symm
      refine ⟨scaleLandmark (.fin m) p0, ?_, ?_⟩
      · rw [hnorm]
        exact List.mem_map_of_mem _ hp0
      · have hpf := translated_allFinite _ hfin p0 hp0
        rw [finiteLandmark_iff] at hpf
        obtain ⟨x, y, z, rfl⟩ := hpf
        rw [sqMag_scale m x y z (ne_of_gt hmpos)]
        rw [sqMag_fins] at hD0'
        injection hD0' with hDeq
        rw [hDeq, ← hs02, hs0m]
        rw [div_self (by positivity)]

set_option maxRecDepth 100000 in
/-- C9 witness instantiation. -/
theorem normalizeLandmarks_wrist_origin_unit_norm_witness :
    (normalizeLandmarks ratSqrt unitLandmarks).head? = some ⟨.fin 0, .fin 0, .fin 0⟩
    ∧ ∃ p ∈ normalizeLandmarks ratSqrt unitLandmarks, sqMag p = .fin 1 := by
  have h := normalizeLandmarks_wrist_origin_unit_norm ratSqrt unitLandmarks (by decide)
    (by decide)
  refine ⟨h.1, ?_⟩
  have hsq : ∀ q : ℚ, JSNum.fin q ∈ (translated unitLandmarks).map sqMag →
      0 ≤ ratSqrt q ∧ ratSqrt q ^ 2 = q := by
    intro q hq
    have hl : (translated unitLandmarks).map sqMag
        = JSNum.fin 0 :: List.replicate 20 (JSNum.fin 1) := by decide
    rw [hl] at hq
    simp only [List.mem_cons, List.mem_replicate] at hq
    have h0 : ratSqrt 0 = 0 := by decide
    have h1 : ratSqrt 1 = 1 := by decide
    rcases hq with hq | ⟨-, hq⟩
    · injection hq with he
      subst he
      rw [h0]
      norm_num
    · injection hq with he
      subst he
      rw [h1]
      norm_num
  exact (h.2 (by decide) hsq).2

theorem translated_cons (w : Landmark) (rest : List Landmark) :
    translated (w :: rest) = (w :: rest).map (fun p => subLandmark p w) := rfl

theorem jsMaxList_map_mul (k : ℚ) (hk : 0 < k) (l : List JSNum)
    (hl : ∀ x ∈ l, ∃ q : ℚ, x = .fin q) :
    jsMaxList (l.map (jsMul (.fin k))) = jsMul (.fin k) (jsMaxList l) := by
  cases l with
  | nil => simp [jsMaxList, jsMul, hk]
  | cons x tl =>
    obtain ⟨m, hm, hmem, hbound⟩ := jsMaxList_fin (x :: tl) hl (by simp)
    have hlm : ∀ y ∈ (x :: tl).map (jsMul (.fin k)), ∃ q : ℚ, y = .fin q := by
      intro y hy
      rw [List.mem_map] at hy
      obtain ⟨z, hz, rfl⟩ := hy
      obtain ⟨q, rfl⟩ := hl z hz
      exact ⟨k * q, jsMul_fin k q⟩
    obtain ⟨m', hm', hmem', hbound'⟩ := jsMaxList_fin _ hlm (by simp)
    rw [hm, hm', jsMul_fin]
    congr 1
    apply le_antisymm
    · rw [List.mem_map] at hmem'
      obtain ⟨z, hz, hzeq⟩ := hmem'
      obtain ⟨q, rfl⟩ := hl z hz
      rw [jsMul_fin] at hzeq
      injection hzeq with he
      rw [← he]
      have hq := hbound q hz
      nlinarith
    · apply hbound'
      rw [List.mem_map]
      exact ⟨.fin m, hmem, jsMul_fin k m⟩

theorem distancesOf_allFin (sq : ℚ → ℚ) (lms : List Landmark)
    (hfin : ∀ p ∈ lms, finiteLandmark p) :
    ∀ x ∈ distancesOf sq lms, ∃ q : ℚ, x = .fin q := by
  intro x hx
  unfold distancesOf at hx
  rw [List.mem_map] at hx
  obtain ⟨p, hp, rfl⟩ := hx
  obtain ⟨Dq, hDq, hDq0⟩ := sqMag_fin_nonneg p (translated_allFinite _ hfin p hp)
  obtain ⟨s, hs⟩ := jsSqrt_fin_of_nonneg sq Dq hDq0
  exact ⟨s, by rw [hDq, hs]⟩

/-- C6: for a non-degenerate all-finite sample, normalizing the sample scaled
by a positive rational k and translated by a finite vector t gives exactly
the same landmarks as normalizing the original sample, provided the abstract
square root is multiplicative on the squared distances that occur
(sq (k^2 q) = k sq q, which the true square root satisfies). -/
theorem normalizeLandmarks_scale_translation_invariant (sq : ℚ → ℚ) (k : ℚ) (t : Landmark)
    (lms : List Landmark) (hk : 0 < k) (ht : finiteLandmark t)
    (hfin : ∀ p ∈ lms, finiteLandmark p)
    (hnd : ¬(maxDistanceOf sq lms = .fin 0 ∨ jsIsFinite (maxDistanceOf sq lms) = false))
    (hsq : ∀ q : ℚ, .fin q ∈ (translated lms).map sqMag → sq (k ^ 2 * q) = k * sq q) :
    normalizeLandmarks sq (lms.map (scaleTranslateLandmark k t))
      = normalizeLandmarks sq lms := by
  cases lms with
  | nil => exact absurd (Or.inr rfl) hnd
  | cons w rest =>
  rw [finiteLandmark_iff] at ht
  obtain ⟨tx, ty, tz, rfl⟩ := ht
  have hcomm : translated
        ((w :: rest).map (scaleTranslateLandmark k ⟨.fin tx, .fin ty, .fin tz⟩))
      = (translated (w :: rest)).map
          (fun p => ⟨jsMul (.fin k) p.x, jsMul (.fin k) p.y, jsMul (.fin k) p.z⟩) := by
    rw [List.map_cons, translated_cons, ← List.map_cons, translated_cons, List.map_map,
      List.map_map]
    apply List.map_congr_left
    intro p hp
    have hpf := hfin p hp
    have hwf := hfin w (List.mem_cons_self w rest)
    rw [finiteLandmark_iff] at hpf hwf
    obtain ⟨px, py, pz, rfl⟩ := hpf
    obtain ⟨wx, wy, wz, rfl⟩ := hwf
    simp only [Function.comp_apply, scaleTranslateLandmark, subLandmark, jsMul_fin,
      jsAdd_fin, jsSub_fin, Landmark.mk.injEq, JSNum.fin.injEq]
    refine ⟨by ring, by ring, by ring⟩
  have hdisteq : distancesOf sq
        ((w :: rest).map (scaleTranslateLandmark k ⟨.fin tx, .fin ty, .fin tz⟩))
      = (distancesOf sq (w :: rest)).map (jsMul (.fin k)) := by
    unfold distancesOf
    rw [hcomm, List.map_map, List.map_map]
    apply List.map_congr_left
    intro p hp
    have hpf := translated_allFinite _ hfin p hp
    rw [finiteLandmark_iff] at hpf
    obtain ⟨x, y, z, rfl⟩ := hpf
    have hsm : sqMag ⟨jsMul (.fin k) (.fin x), jsMul (.fin k) (.fin y), jsMul (.fin k) (.fin z)⟩
        = .fin (k ^ 2 * (x * x + y * y + z * z)) := by
      rw [jsMul_fin, jsMul_fin, jsMul_fin, sqMag_fins]
      congr 1
      ring
    simp only [Function.comp_apply]
    rw [hsm, sqMag_fins]
    have hD0 : (0 : ℚ) ≤ x * x + y * y + z * z := by
      nlinarith [mul_self_nonneg x, mul_self_nonneg y, mul_self_nonneg z]
    by_cases hz : x * x + y * y + z * z = 0
    · rw [hz, show k ^ 2 * (0 : ℚ) = 0 by ring, jsSqrt_zero, jsMul_fin, mul_zero]
    · have hkD : k ^ 2 * (x * x + y * y + z * z) ≠ 0 :=
        mul_ne_zero (pow_ne_zero 2 (ne_of_gt hk)) hz
      rw [jsSqrt_fin_eq sq _ (mul_nonneg (sq_nonneg k) hD0), jsSqrt_fin_eq sq _ hD0,
        if_neg hkD, if_neg hz, jsMul_fin]
      congr 1
      exact hsq _ (List.mem_map.mpr ⟨⟨.fin x, .fin y, .fin z⟩, hp, sqMag_fins x y z⟩)
  have hfeq : (distancesOf sq
        ((w :: rest).map (scaleTranslateLandmark k ⟨.fin tx, .fin ty, .fin tz⟩))).filter
          (fun d => jsGt d (.fin 0))
      = ((distancesOf sq (w :: rest)).filter (fun d => jsGt d (.fin 0))).map
          (jsMul (.fin k)) := by
    rw [hdisteq, List.filter_map]
    congr 1
    apply List.filter_congr
    intro d hd
    obtain ⟨q, rfl⟩ := distancesOf_allFin sq (w :: rest) hfin d hd
    simp only [Function.comp_apply, jsMul_fin, jsGt, jsLt]
    rw [decide_eq_decide]
    exact mul_pos_iff_of_pos_left hk
  have hfiltfin : ∀ x ∈ (distancesOf sq (w :: rest)).filter (fun d => jsGt d (.fin 0)),
      ∃ q : ℚ, x = .fin q := by
    intro x hx
    exact distancesOf_allFin sq (w :: rest) hfin x (List.mem_filter.mp hx).1
  have hmax : maxDistanceOf sq
        ((w :: rest).map (scaleTranslateLandmark k ⟨.fin tx, .fin ty, .fin tz⟩))
      = jsMul (.fin k) (maxDistanceOf sq (w :: rest)) := by
    unfold maxDistanceOf
    rw [hfeq, jsMaxList_map_mul k hk _ hfiltfin]
  obtain ⟨m, hmd, hm0⟩ :
      ∃ m : ℚ, maxDistanceOf sq (w :: rest) = .fin m ∧ m ≠ 0 := by
    push_neg at hnd
    obtain ⟨h1, h2⟩ := hnd
    cases hx : maxDistanceOf sq (w :: rest) with
    | fin m => exact ⟨m, rfl, fun h => h1 (by rw [hx, h])⟩
    | nan => exact absurd (by rw [hx]; rfl) h2
    | inf => exact absurd (by rw [hx]; rfl) h2
    | ninf => exact absurd (by rw [hx]; rfl) h2
  have hmax' : maxDistanceOf sq
        ((w :: rest).map (scaleTranslateLandmark k ⟨.fin tx, .fin ty, .fin tz⟩))
      = .fin (k * m) := by
    rw [hmax, hmd, jsMul_fin]
  have hguard : ∀ c : ℚ, c ≠ 0 →
      ¬(JSNum.fin c = .fin 0 ∨ jsIsFinite (JSNum.fin c) = false) := by
    intro c hc
    rintro (h | h)
    · injection h with h
      exact hc h
    · simp [jsIsFinite] at h
  have hkm : k * m ≠ 0 := mul_ne_zero (ne_of_gt hk) hm0
  unfold normalizeLandmarks
  rw [hmax', hmd, if_neg (hguard _ hkm), if_neg (hguard _ hm0), hcomm, List.map_map]
  apply List.map_congr_left
  intro p hp
  have hpf := translated_allFinite _ hfin p hp
  rw [finiteLandmark_iff] at hpf
  obtain ⟨x, y, z, rfl⟩ := hpf
  simp only [Function.comp_apply, scaleLandmark, jsMul_fin, jsDiv_fin _ _ hkm,
    jsDiv_fin _ _ hm0, Landmark.mk.injEq, JSNum.fin.injEq]
  refine ⟨?_, ?_, ?_⟩ <;> rw [mul_div_mul_left _ _ (ne_of_gt hk)]

set_option maxRecDepth 100000 in
/-- C6 witness instantiation: scaling by 2 and translating by (1,1,1). -/
theorem normalizeLandmarks_scale_translation_invariant_witness :
    normalizeLandmarks ratSqrt
        (unitLandmarks.map (scaleTranslateLandmark 2 ⟨.fin 1, .fin 1, .fin 1⟩))
      = normalizeLandmarks ratSqrt unitLandmarks := by
  apply normalizeLandmarks_scale_translation_invariant ratSqrt 2 ⟨.fin 1, .fin 1, .fin 1⟩
    unitLandmarks (by norm_num) (by decide) (by decide) (by decide)
  intro q hq
  have hl : (translated unitLandmarks).map sqMag
      = JSNum.fin 0 :: List.replicate 20 (JSNum.fin 1) := by decide
  rw [hl] at hq
  simp only [List.mem_cons, List.mem_replicate] at hq
  have h0 : ratSqrt 0 = 0 := by decide
  have h4 : ratSqrt 4 = 2 := by decide
  have h1 : ratSqrt 1 = 1 := by decide
  rcases hq with hq | ⟨-, hq⟩
  · injection hq with he
    subst he
    rw [show (2 : ℚ) ^ 2 * 0 = 0 by norm_num, h0]
    norm_num
  · injection hq with he
    subst he
    rw [show (2 : ℚ) ^ 2 * 1 = 4 by norm_num, h4, h1]
    norm_num
